import Mathlib

/-!
Verification of the self-correcting code-generation-and-execution engine of the
PA repository (agent services `ml_agent` and `ml_agents`).

The development shallowly embeds:
 - the variable-environment model and the pickle-serializability filter of
   `src/ml_agent/src/agent/nodes/code/execution.py` (`CodeExecutionNode`);
 - the fenced-code-block extraction regex of the same module;
 - the best-effort capability (dependency) resolution of
   `CodeExecutionNode._import_dependencies` and of
   `src/ml_agents/src/agent/tools/action_engine.py` (`_code_execution`);
 - the repair-loop workflow graph of `src/ml_agent/src/agent/workflow.py`
   (task_decomposer → code_generator → code_executor ⇄ code_debugger, with
   conditional routing to visualization_display / analysis_responder /
   fallback_handler), together with the attempt-counter initialization of
   `AgentService.chat` (src/ml_agents/src/services/agent.py).

LLM calls (plan decomposition, code generation, code debugging) and the Python
`exec` of generated code are non-deterministic external effects; they are
embedded as oracle functions threaded through the machine, so every theorem
quantifies over all possible generator/executor behaviours.
-/

namespace PA

/-! ## Values and variable environments

A Python runtime value is abstracted by the two properties the execution node
inspects: whether `pickle.dumps` succeeds on it, and whether it is a
`types.ModuleType` instance. -/

/-- Abstraction of a Python value as seen by `CodeExecutionNode`:
`serializable` models `pickle.dumps(obj)` succeeding, `isModule` models
`isinstance(obj, ModuleType)`. -/
structure Value where
  serializable : Bool
  isModule : Bool
deriving DecidableEq

/-- A variable environment (Python `dict[str, Any]`): an association list from
names to values, first binding wins on lookup. -/
abbrev Ctx : Type := List (String × Value)

/-- Dictionary lookup (`d.get(k)` / `d[k]`): the value of the first binding of
`k`, if any. -/
def ctxLookup : Ctx → String → Option Value
  | [], _ => none
  | (k2, v) :: rest, k => if k2 = k then some v else ctxLookup rest k

/-- Single-key dictionary assignment `d[k] = v`: replaces the first binding of
`k` in place, or appends a new binding. -/
def ctxInsert : Ctx → String → Value → Ctx
  | [], k, v => [(k, v)]
  | (k2, v2) :: rest, k, v =>
      if k2 = k then (k2, v) :: rest else (k2, v2) :: ctxInsert rest k v

/-- Python `base.update(overrides)`: assigns every binding of `overrides` into
`base`, in order. -/
def ctxUpdate (base overrides : Ctx) : Ctx :=
  overrides.foldl (fun acc kv => ctxInsert acc kv.1 kv.2) base

/-- Result of running one code artifact with Python `exec`: either the final
global context, or a raised exception message (`str(e)`). -/
inductive ExecResult where
  | ok (ctx : Ctx)
  | err (msg : String)
deriving DecidableEq

/-- `ExecResult.isErr`: the run raised. -/
def ExecResult.isErr : ExecResult → Bool
  | .ok _ => false
  | .err _ => true

/-! ## Fenced code-block extraction

`CodeExecutionNode._extract_code` searches `message.strip()` for the regex
`r"```python\s([\s\S]*?)```"` and returns `match.group(1).strip()`, or `None`
when there is no match.  The embedding works on `List Char`. -/

/-- ASCII whitespace matched by Python's `\s` (and stripped by `str.strip`):
space, tab, newline, carriage return, vertical tab, form feed. -/
def isSpaceChar (c : Char) : Bool :=
  c = ' ' || c = '\t' || c = '\n' || c = '\r' || c = Char.ofNat 11 || c = Char.ofNat 12

/-- Python `str.strip()`: drop leading and trailing whitespace. -/
def pyStrip (s : List Char) : List Char :=
  ((s.dropWhile isSpaceChar).reverse.dropWhile isSpaceChar).reverse

/-- The literal `"```python"` opening the fenced block. -/
def fenceOpen : List Char := "```python".data

/-- The literal `"```"` closing the fenced block. -/
def threeTicks : List Char := "```".data

/-- If `p` is a prefix of `s`, return the remainder of `s`; otherwise `none`. -/
def dropLit : List Char → List Char → Option (List Char)
  | [], s => some s
  | _ :: _, [] => none
  | p :: ps, c :: cs => if p = c then dropLit ps cs else none

/-- Does `p` occur as a contiguous substring of `s`? -/
def hasSub (p : List Char) : List Char → Bool
  | [] => (dropLit p []).isSome
  | c :: cs => (dropLit p (c :: cs)).isSome || hasSub p cs

/-- Lazy capture `([\s\S]*?)` up to the first occurrence of `"```"`:
the characters before the first close marker, or `none` if there is none. -/
def takeUntilTicks : List Char → Option (List Char)
  | [] => none
  | c :: cs =>
      if (dropLit threeTicks (c :: cs)).isSome then some []
      else (takeUntilTicks cs).map (fun t => c :: t)

/-- Try to match the whole pattern at the current position: `"```python"`,
one whitespace character, then the lazy capture up to `"```"`. -/
def matchAtHere (l : List Char) : Option (List Char) :=
  match dropLit fenceOpen l with
  | some (r :: rs) => if isSpaceChar r then takeUntilTicks rs else none
  | _ => none

/-- `re.search` of the pattern: try the match at each successive start
position, returning the first (leftmost) capture. -/
def extractFrom : List Char → Option (List Char)
  | [] => none
  | c :: cs =>
      match matchAtHere (c :: cs) with
      | some content => some content
      | none => extractFrom cs

/-- `CodeExecutionNode._extract_code`: strip the message, search for the
fenced block, and return the stripped capture. -/
def CodeExecutionNode.extract_code (message : String) : Option String :=
  (extractFrom (pyStrip message.data)).map (fun t => String.mk (pyStrip t))

/-- A `"```python"` opening followed by a whitespace character and a later
`"```"` close starts at the current position. -/
def fenceAtHere (l : List Char) : Bool :=
  match dropLit fenceOpen l with
  | some (r :: rs) => isSpaceChar r && hasSub threeTicks rs
  | _ => false

/-- A `"```python"` opening followed by a whitespace character with a later
`"```"` close exists somewhere in the character list.  This is the
independent statement of "contains a ```python fenced code block". -/
def hasPythonFence : List Char → Bool
  | [] => false
  | c :: cs => fenceAtHere (c :: cs) || hasPythonFence cs

/-- A message contains a ```python fenced code block (after the initial
`strip()` performed by the node). -/
def containsPythonFence (message : String) : Bool :=
  hasPythonFence (pyStrip message.data)

/-! ## The agent state

`src/ml_agent/src/agent/state.py` is not part of the provided sources; the
fields below are exactly those read and written by the nodes present in
`src/ml_agent/src/agent/nodes/`, and the integer attempt fields match the
`current_debugging_attempt` / `max_debugging_attempts` keys initialized by
`AgentService.chat` in `src/ml_agents/src/services/agent.py`. -/

/-- The shared state threaded through the workflow graph. -/
structure AgentState where
  question : String
  task : String
  dataset_summary : String
  dependencies : List String
  code : String
  code_variables : Ctx
  analysis_response : Option Value
  visualization : Option Value
  error_message : Option String
  current_debugging_attempt : Nat
  max_debugging_attempts : Nat
deriving DecidableEq

/-! ## The sandbox executor (`CodeExecutionNode`) -/

/-- `CodeExecutionNode._is_pickle_serializable`: `pickle.dumps` succeeds. -/
def CodeExecutionNode.is_pickle_serializable (v : Value) : Bool :=
  v.serializable

/-- `CodeExecutionNode._import_dependencies`: resolve each package name with
`importlib.import_module` (abstracted by `resolve`), silently skipping any
name whose import raises. -/
def CodeExecutionNode.import_dependencies (resolve : String → Option Value) :
    List String → Ctx
  | [] => []
  | d :: ds =>
      match resolve d with
      | some m => (d, m) :: CodeExecutionNode.import_dependencies resolve ds
      | none => CodeExecutionNode.import_dependencies resolve ds

/-- `str(e)` for the `TypeError` raised by `exec(None, …)`. -/
def typeErrorNoneCode : String :=
  "exec() arg 1 must be a string, bytes or code object"

/-- Python `exec(code, global_context)` where `code` may be `None` (no fenced
block extracted): `exec(None, …)` raises `TypeError` before running anything;
otherwise the opaque generated code runs, abstracted by the oracle `run`. -/
def execCode (run : String → Ctx → ExecResult) :
    Option String → Ctx → ExecResult
  | none, _ => .err typeErrorNoneCode
  | some c, ctx => run c ctx

/-- The dictionary comprehension of `CodeExecutionNode.invoke`: keep only
bindings whose key is not a declared dependency, whose value is not a module,
and whose value pickles. -/
def CodeExecutionNode.filter_variables (deps : List String) (ctx : Ctx) : Ctx :=
  ctx.filter fun kv =>
    !(deps.contains kv.1) && !kv.2.isModule
      && CodeExecutionNode.is_pickle_serializable kv.2

/-- The merged execution context built by `CodeExecutionNode.invoke`: imported
modules, updated with a copy of the existing variables. -/
def CodeExecutionNode.merged_context (resolve : String → Option Value)
    (s : AgentState) : Ctx :=
  ctxUpdate (CodeExecutionNode.import_dependencies resolve s.dependencies)
    s.code_variables

/-- The successful branch of `CodeExecutionNode.invoke`: fold the filtered
variables back into the state, look up the report and visualization
variables, clear the error and reset the debugging-attempt counter. -/
def CodeExecutionNode.success_update (s : AgentState) (ctx : Ctx) :
    AgentState :=
  { s with
    code_variables := CodeExecutionNode.filter_variables s.dependencies ctx
    analysis_response :=
      ctxLookup (CodeExecutionNode.filter_variables s.dependencies ctx)
        "analysis_report"
    visualization :=
      ctxLookup (CodeExecutionNode.filter_variables s.dependencies ctx)
        "image"
    error_message := none
    current_debugging_attempt := 0 }

/-- `CodeExecutionNode.invoke`: extract the code block, build the merged
context, `exec` the code; on success fold the filtered variables back and
reset the error and attempt counter, on any exception record `str(e)` in
`error_message` and leave everything else (in particular `code_variables`)
unchanged.  The `finally: return state` of the source makes the function
total in the state. -/
def CodeExecutionNode.invoke (resolve : String → Option Value)
    (run : String → Ctx → ExecResult) (s : AgentState) : AgentState :=
  match execCode run (CodeExecutionNode.extract_code s.code)
      (CodeExecutionNode.merged_context resolve s) with
  | .ok ctx => CodeExecutionNode.success_update s ctx
  | .err e => { s with error_message := some e }

/-! ## The `ml_agents` action-engine executor (`_code_execution`) -/

/-- Outcome of `_code_execution` in
`src/ml_agents/src/agent/tools/action_engine.py`: either the
`analysis_report` value together with the optional `image`, or the formatted
failure string. -/
inductive EngineResult where
  | success (report : Value) (image : Option Value)
  | failure (msg : String)
deriving DecidableEq

/-- `EngineResult.isFailure`: the engine returned the failure string. -/
def EngineResult.isFailure : EngineResult → Bool
  | .success _ _ => false
  | .failure _ => true

/-- The f-string returned by `_code_execution` on a caught exception. -/
def engineFailureMessage (e : String) : String :=
  "\nExecution Status: Failed\nResult: None\n\n--- ERROR MESSAGE ---\n"
    ++ e ++ "\n"

/-- `str(KeyError("analysis_report"))`: the message of the exception raised by
`global_context["analysis_report"]` when the key is absent. -/
def keyErrorAnalysisReport : String := "'analysis_report'"

/-- `_code_execution(code, state)` of the `ml_agents` action engine: import
dependencies best-effort, merge in a copy of `state["variables"]`, `exec` the
code, then return `global_context["analysis_report"]` (a raising subscript)
and `global_context.get("image")`; any exception — including the `KeyError`
from a missing `analysis_report` — is caught and converted to the failure
string. -/
def actionEngineCodeExecution (resolve : String → Option Value)
    (run : String → Ctx → ExecResult) (code : String)
    (vars : Ctx) (deps : List String) : EngineResult :=
  match run code
      (ctxUpdate (CodeExecutionNode.import_dependencies resolve deps) vars) with
  | .ok ctx =>
      match ctxLookup ctx "analysis_report" with
      | some report => .success report (ctxLookup ctx "image")
      | none => .failure (engineFailureMessage keyErrorAnalysisReport)
  | .err e => .failure (engineFailureMessage e)

/-! ## The workflow graph (`src/ml_agent/src/agent/workflow.py`)

Nodes and edges mirror `WorkflowBuilder._add_nodes` / `_add_edges` /
`_add_conditional_edges`.  The conditional routing function
`routing_from_code_executor` lives in `agent/nodes/conditional_routing.py`,
which is not part of the provided sources; it is modelled from the spec
below.  The LLM-backed nodes are parametrized by oracles. -/

/-- The graph nodes registered by `WorkflowBuilder._add_nodes`, plus the
absorbing `finished` node standing for langgraph's `END`. -/
inductive Node where
  | task_decomposer
  | code_generator
  | code_executor
  | code_debugger
  | visualization_display
  | analysis_responder
  | fallback_handler
  | finished
deriving DecidableEq

/-- The external non-deterministic effects of one workflow run: the three LLM
chains and the Python import/exec machinery. -/
structure Oracles where
  /-- `TaskDecompositionNode`'s chain: question ↦ decomposed task text. -/
  decompose : String → String
  /-- `CodeGenerationNode`'s chain: state inputs ↦ generated code text. -/
  generate : AgentState → String
  /-- `CodeDebuggingNode`'s chain: state inputs ↦ corrected code text. -/
  debugFix : AgentState → String
  /-- `importlib.import_module`, `none` when the import raises. -/
  resolve : String → Option Value
  /-- `exec` of a non-`None` code string over a context. -/
  run : String → Ctx → ExecResult

/-- `TaskDecompositionNode.invoke`: store the decomposed task in
`state.task`. -/
def TaskDecompositionNode.invoke (decompose : String → String)
    (s : AgentState) : AgentState :=
  { s with task := decompose s.question }

/-- `CodeGenerationNode.invoke`: store the generated code in `state.code`. -/
def CodeGenerationNode.invoke (generate : AgentState → String)
    (s : AgentState) : AgentState :=
  { s with code := generate s }

/-- `CodeDebuggingNode.invoke`: store the corrected code in `state.code` and
increment `current_debugging_attempt` by one. -/
def CodeDebuggingNode.invoke (debugFix : AgentState → String)
    (s : AgentState) : AgentState :=
  { s with
    code := debugFix s
    current_debugging_attempt := s.current_debugging_attempt + 1 }

/-- The prompt input of `FallbackHandlingNode.invoke`: the source invokes its
chain with `{"question": state.task}`, so the payload bound to the prompt's
`question` slot is `state.task`. -/
def fallbackPromptInput (s : AgentState) : String := s.task

/-- `FallbackHandlingNode.invoke`: invokes its chain (see
`fallbackPromptInput`) and returns the state unchanged. -/
def FallbackHandlingNode.invoke (s : AgentState) : AgentState := s

/-- `AnalysisResponseNode.invoke`: formats the report and invokes its chain,
returning the state unchanged. -/
def AnalysisResponseNode.invoke (s : AgentState) : AgentState := s

/-- Modelled from the spec: `VisualizationDisplayNode` (its module
`agent/nodes/visualization_display.py` is not among the provided sources)
delivers the visualization payload through the visualization-finalization
path and does not alter the repair state. -/
def VisualizationDisplayNode.invoke (s : AgentState) : AgentState := s

/-- Modelled from the spec: `routing_from_code_executor`
(`agent/nodes/conditional_routing.py` is not among the provided sources).
Per the spec's Repair Loop Controller / Router: on
`ExecutionOutcome.Failure` with `attempt < max_attempts` the loop re-enters
regeneration (`code_debugger`); on `Failure` once `attempt` reaches
`max_attempts` it routes unconditionally to the Fallback Handler; on
`Success` the Router dispatches to the visualization-finalization path when
a visualization payload is present and otherwise to narrative
finalization (`analysis_responder`). -/
def routing_from_code_executor (s : AgentState) : Node :=
  if s.error_message.isSome then
    if s.current_debugging_attempt < s.max_debugging_attempts then
      Node.code_debugger
    else
      Node.fallback_handler
  else if s.visualization.isSome then
    Node.visualization_display
  else
    Node.analysis_responder

/-- One transition of the compiled graph: the static edges of
`WorkflowBuilder._add_edges` plus the conditional edges out of
`code_executor`. -/
def stepNode (O : Oracles) : Node × AgentState → Node × AgentState
  | (.task_decomposer, s) =>
      (.code_generator, TaskDecompositionNode.invoke O.decompose s)
  | (.code_generator, s) =>
      (.code_executor, CodeGenerationNode.invoke O.generate s)
  | (.code_executor, s) =>
      let s2 := CodeExecutionNode.invoke O.resolve O.run s
      (routing_from_code_executor s2, s2)
  | (.code_debugger, s) =>
      (.code_executor, CodeDebuggingNode.invoke O.debugFix s)
  | (.visualization_display, s) =>
      (.analysis_responder, VisualizationDisplayNode.invoke s)
  | (.analysis_responder, s) => (.finished, AnalysisResponseNode.invoke s)
  | (.fallback_handler, s) => (.finished, FallbackHandlingNode.invoke s)
  | (.finished, s) => (.finished, s)

/-- The run of the graph: `k` transitions from a configuration. -/
def machineRun (O : Oracles) (c : Node × AgentState) : Nat → Node × AgentState
  | 0 => c
  | k + 1 => stepNode O (machineRun O c k)

/-- The node the run occupies after `k` transitions from the entry point. -/
def nodeAt (O : Oracles) (s0 : AgentState) (k : Nat) : Node :=
  (machineRun O (Node.task_decomposer, s0) k).1

/-- The state after `k` transitions from the entry point. -/
def stateAt (O : Oracles) (s0 : AgentState) (k : Nat) : AgentState :=
  (machineRun O (Node.task_decomposer, s0) k).2

/-- How many of the first `N` configurations occupy node `t`: the number of
times node `t` is entered (and hence invoked) during the first `N` steps. -/
def countNode (O : Oracles) (s0 : AgentState) (t : Node) : Nat → Nat
  | 0 => 0
  | N + 1 => countNode O s0 t N + (if nodeAt O s0 N = t then 1 else 0)

/-- Synthesizer nodes: code generation and code debugging both produce one
code artifact per entry. -/
def isSynthNode : Node → Bool
  | .code_generator => true
  | .code_debugger => true
  | _ => false

/-- How many of the first `N` configurations occupy a synthesizer node. -/
def countSynth (O : Oracles) (s0 : AgentState) : Nat → Nat
  | 0 => 0
  | N + 1 => countSynth O s0 N + (if isSynthNode (nodeAt O s0 N) then 1 else 0)

/-! ## Service-level initialization (`AgentService.chat`) -/

/-- The predefined dependency list of `src/ml_agents/src/services/agent.py`. -/
def serviceDependencies : List String :=
  ["numpy", "pandas", "scipy", "sklearn", "statsmodels.api", "joblib",
   "torch", "torchvision", "lightgbm", "xgboost", "optuna",
   "sentence_transformers", "gensim==4.3.2", "matplotlib.pyplot", "seaborn",
   "nltk", "spacy", "tqdm", "networkx", "prophet>=1.2", "nltk>=3.9"]

/-- The initial state a Task enters the loop with, as built by
`AgentService.chat` (src/ml_agents/src/services/agent.py): the user question,
the name→dataframe variable mapping, the predefined dependency list, no
visualization, and — per the literal dictionary in the source —
`current_debugging_attempt` initialized to `1` and `max_debugging_attempts`
to `5`. -/
def AgentService.chatInitialState (question : String) (vars : Ctx) :
    AgentState :=
  { question := question
    task := ""
    dataset_summary := ""
    dependencies := serviceDependencies
    code := ""
    code_variables := vars
    analysis_response := none
    visualization := none
    error_message := none
    current_debugging_attempt := 1
    max_debugging_attempts := 5 }

/-! ## Basic lemmas about the executor node -/

/-- When the `exec` raises, `invoke` only records the message. -/
theorem invoke_eq_of_err (resolve : String → Option Value)
    (run : String → Ctx → ExecResult) (s : AgentState) (e : String)
    (h : execCode run (CodeExecutionNode.extract_code s.code)
        (CodeExecutionNode.merged_context resolve s) = .err e) :
    CodeExecutionNode.invoke resolve run s = { s with error_message := some e } := by
  unfold CodeExecutionNode.invoke
  rw [h]

/-- When the `exec` completes, `invoke` performs the success update. -/
theorem invoke_eq_of_ok (resolve : String → Option Value)
    (run : String → Ctx → ExecResult) (s : AgentState) (ctx : Ctx)
    (h : execCode run (CodeExecutionNode.extract_code s.code)
        (CodeExecutionNode.merged_context resolve s) = .ok ctx) :
    CodeExecutionNode.invoke resolve run s = CodeExecutionNode.success_update s ctx := by
  unfold CodeExecutionNode.invoke
  rw [h]

/-! ## Shared concrete instances used by witnesses and counterexamples -/

/-- A resolver under which no capability import succeeds. -/
def wResolve : String → Option Value := fun _ => none

/-- An `exec` oracle that always raises with message `"boom"`. -/
def wRunErr : String → Ctx → ExecResult := fun _ _ => ExecResult.err "boom"

/-- A small final context: one picklable value and one module handle. -/
def wCtxA : Ctx := [("a", ⟨true, false⟩), ("m", ⟨false, true⟩)]

/-- An `exec` oracle that always completes with final context `wCtxA`. -/
def wRunOkA : String → Ctx → ExecResult := fun _ _ => ExecResult.ok wCtxA

/-- An `exec` oracle that always completes with an empty final context. -/
def wRunOkEmpty : String → Ctx → ExecResult := fun _ _ => ExecResult.ok []

/-- A service-initialized state whose `code` carries a fenced block. -/
def wStateFenced : AgentState :=
  { AgentService.chatInitialState "q" [] with code := "```python\nx = 1\n```" }

/-! ## C2 (the failing-code conjunct fails on the `ml_agents` action engine) -/

/-- Counterexample to C2 as stated: in the `ml_agents` action engine, the
Failure emitted for a raising execution does not carry the failing code.  At
a concrete raising run, the failure value is the formatted string built from
`str(e)` alone; two runs with entirely different failing code texts yield the
identical failure value, and the failing code text occurs nowhere in the
failure message. -/
theorem C2_counterexample :
    actionEngineCodeExecution wResolve wRunErr "failing_marker = 1" [] []
        = .failure (engineFailureMessage "boom")
    ∧ actionEngineCodeExecution wResolve wRunErr "other_code = 2" [] []
        = actionEngineCodeExecution wResolve wRunErr "failing_marker = 1" [] []
    ∧ hasSub "failing_marker".data (engineFailureMessage "boom").data
        = false := by
  refine ⟨by decide, by decide, by decide⟩

/-- C2 (amended): on a runtime error the executor emits a Failure carrying
the error message, and the variable environment it returns equals the
environment it was given — no partial mutation is merged back.
`CodeExecutionNode.invoke` additionally retains the failing code
(`state.code` is returned exactly as given next to `error_message`); the
`ml_agents` action engine's `_code_execution` returns the failure string
built from `str(e)` only — its failure value is independent of which code
failed, so it carries the error message but not the failing code. -/
theorem C2_failure_preserves_environment :
    (∀ (resolve : String → Option Value) (run : String → Ctx → ExecResult)
        (s : AgentState) (e : String),
      execCode run (CodeExecutionNode.extract_code s.code)
          (CodeExecutionNode.merged_context resolve s) = .err e →
      CodeExecutionNode.invoke resolve run s
          = { s with error_message := some e }
        ∧ (CodeExecutionNode.invoke resolve run s).code_variables
            = s.code_variables
        ∧ (CodeExecutionNode.invoke resolve run s).code = s.code
        ∧ (CodeExecutionNode.invoke resolve run s).error_message = some e)
  ∧ (∀ (resolve : String → Option Value) (run : String → Ctx → ExecResult)
        (code : String) (vars : Ctx) (deps : List String) (e : String),
      run code (ctxUpdate (CodeExecutionNode.import_dependencies resolve deps)
          vars) = .err e →
      actionEngineCodeExecution resolve run code vars deps
        = .failure (engineFailureMessage e))
  ∧ (∀ (resolve : String → Option Value) (run : String → Ctx → ExecResult)
        (code1 code2 : String) (vars : Ctx) (deps : List String) (e : String),
      run code1 (ctxUpdate (CodeExecutionNode.import_dependencies resolve deps)
          vars) = .err e →
      run code2 (ctxUpdate (CodeExecutionNode.import_dependencies resolve deps)
          vars) = .err e →
      actionEngineCodeExecution resolve run code1 vars deps
        = actionEngineCodeExecution resolve run code2 vars deps) := by
  refine ⟨?_, ?_, ?_⟩
  · intro resolve run s e h
    have hinv := invoke_eq_of_err resolve run s e h
    refine ⟨hinv, ?_, ?_, ?_⟩ <;> rw [hinv]
  · intro resolve run code vars deps e h
    unfold actionEngineCodeExecution
    rw [h]
  · intro resolve run code1 code2 vars deps e h1 h2
    unfold actionEngineCodeExecution
    rw [h1, h2]

/-- Witness for the amended C2 at a concrete failing execution. -/
theorem C2_witness :
    CodeExecutionNode.invoke wResolve wRunErr wStateFenced
      = { wStateFenced with error_message := some "boom" } :=
  (C2_failure_preserves_environment.1 wResolve wRunErr wStateFenced "boom"
    (by decide)).1

/-! ## C3 -/

/-- C3: after every successful execution, every binding folded back into the
environment passes the pickle-serializability check, is not a module handle,
and is not keyed by a declared capability (dependency) name. -/
theorem C3_environment_only_transferable :
    ∀ (resolve : String → Option Value) (run : String → Ctx → ExecResult)
      (s : AgentState) (ctx : Ctx),
      execCode run (CodeExecutionNode.extract_code s.code)
          (CodeExecutionNode.merged_context resolve s) = .ok ctx →
      ∀ kv ∈ (CodeExecutionNode.invoke resolve run s).code_variables,
        CodeExecutionNode.is_pickle_serializable kv.2 = true
          ∧ kv.2.isModule = false
          ∧ s.dependencies.contains kv.1 = false := by
  intro resolve run s ctx h kv hmem
  rw [invoke_eq_of_ok resolve run s ctx h] at hmem
  have hmem2 : kv ∈ (ctx : List (String × Value)).filter (fun kv =>
      !(s.dependencies.contains kv.1) && !kv.2.isModule
        && CodeExecutionNode.is_pickle_serializable kv.2) := hmem
  have hprop := (List.mem_filter.mp hmem2).2
  simp only [Bool.and_eq_true, Bool.not_eq_true'] at hprop
  exact ⟨hprop.2, hprop.1.2, hprop.1.1⟩

/-- Witness for C3 on a concrete successful run whose final context holds a
picklable value and a module handle. -/
theorem C3_witness :
    CodeExecutionNode.is_pickle_serializable
        (("a", (⟨true, false⟩ : Value)).2) = true
      ∧ (("a", (⟨true, false⟩ : Value)).2).isModule = false
      ∧ wStateFenced.dependencies.contains
          (("a", (⟨true, false⟩ : Value)).1) = false :=
  C3_environment_only_transferable wResolve wRunOkA wStateFenced wCtxA
    (by decide) ("a", ⟨true, false⟩) (by decide)

/-! ## C6 (the claim fails on the `ml_agents` action engine) -/

/-- Counterexample to C6 as stated: an execution that completes without any
runtime error but leaves no `analysis_report` variable makes
`_code_execution` of the action engine return the formatted failure string
(the subscript `global_context["analysis_report"]` raises `KeyError`, caught
by the same `except`), not a Success with an empty report. -/
theorem C6_counterexample :
    actionEngineCodeExecution wResolve wRunOkEmpty "x = 1" []
        serviceDependencies
      = .failure (engineFailureMessage keyErrorAnalysisReport)
    ∧ (actionEngineCodeExecution wResolve wRunOkEmpty "x = 1" []
        serviceDependencies).isFailure = true := by
  constructor <;> decide

/-- C6 (amended): in `CodeExecutionNode.invoke` every run that completes
without a runtime error is a Success (`error_message = None`) even when the
report variable is absent; in the action engine's `_code_execution`, a
present report (even an empty one) is returned as success, but an absent
report variable is converted into the `KeyError` failure string. -/
theorem C6_missing_report_policy :
    (∀ (resolve : String → Option Value) (run : String → Ctx → ExecResult)
        (s : AgentState) (ctx : Ctx),
      execCode run (CodeExecutionNode.extract_code s.code)
          (CodeExecutionNode.merged_context resolve s) = .ok ctx →
      (CodeExecutionNode.invoke resolve run s).error_message = none)
  ∧ (∀ (resolve : String → Option Value) (run : String → Ctx → ExecResult)
        (code : String) (vars : Ctx) (deps : List String) (ctx : Ctx)
        (r : Value),
      run code (ctxUpdate (CodeExecutionNode.import_dependencies resolve deps)
          vars) = .ok ctx →
      ctxLookup ctx "analysis_report" = some r →
      actionEngineCodeExecution resolve run code vars deps
        = .success r (ctxLookup ctx "image"))
  ∧ (∀ (resolve : String → Option Value) (run : String → Ctx → ExecResult)
        (code : String) (vars : Ctx) (deps : List String) (ctx : Ctx),
      run code (ctxUpdate (CodeExecutionNode.import_dependencies resolve deps)
          vars) = .ok ctx →
      ctxLookup ctx "analysis_report" = none →
      actionEngineCodeExecution resolve run code vars deps
        = .failure (engineFailureMessage keyErrorAnalysisReport)) := by
  refine ⟨?_, ?_, ?_⟩
  · intro resolve run s ctx h
    rw [invoke_eq_of_ok resolve run s ctx h]
    rfl
  · intro resolve run code vars deps ctx r hrun hlook
    simp [actionEngineCodeExecution, hrun, hlook]
  · intro resolve run code vars deps ctx hrun hlook
    simp [actionEngineCodeExecution, hrun, hlook]

/-- Witness for the amended C6: a concrete error-free run with an empty final
context is still a Success of `CodeExecutionNode.invoke`. -/
theorem C6_witness :
    (CodeExecutionNode.invoke wResolve wRunOkEmpty wStateFenced).error_message
      = none :=
  C6_missing_report_policy.1 wResolve wRunOkEmpty wStateFenced [] (by decide)

/-! ## C7 -/

/-- C7: capability resolution is best-effort — every declared identifier that
resolves is bound in the working context under its own name, every identifier
that fails to resolve is silently skipped (looked up, it is simply absent),
and resolution failure by itself never fails the run: whether `invoke`
reports an error coincides exactly with whether the `exec` of the artifact
raises, whatever the resolver does. -/
theorem C7_capability_resolution_best_effort :
    (∀ (resolve : String → Option Value) (deps : List String) (d : String),
      ctxLookup (CodeExecutionNode.import_dependencies resolve deps) d
        = if deps.contains d then resolve d else none)
  ∧ (∀ (resolve : String → Option Value) (run : String → Ctx → ExecResult)
        (s : AgentState),
      ((CodeExecutionNode.invoke resolve run s).error_message).isSome
        = (execCode run (CodeExecutionNode.extract_code s.code)
            (CodeExecutionNode.merged_context resolve s)).isErr) := by
  constructor
  · intro resolve deps d
    induction deps with
    | nil => rfl
    | cons d2 ds ih =>
        unfold CodeExecutionNode.import_dependencies
        cases hr : resolve d2 with
        | some m =>
            by_cases hd : d2 = d
            · subst hd
              simp [ctxLookup, hr, List.contains_cons]
            · simp [ctxLookup, hd, ih, List.contains_cons,
                Ne.symm hd]
        | none =>
            by_cases hd : d2 = d
            · subst hd
              rw [ih]
              by_cases hds : ds.contains d2
              · simp [hds, hr, List.contains_cons]
              · simp [hds, hr, List.contains_cons]
            · simp [ih, List.contains_cons, Ne.symm hd]
  · intro resolve run s
    cases h : execCode run (CodeExecutionNode.extract_code s.code)
        (CodeExecutionNode.merged_context resolve s) with
    | ok ctx =>
        rw [invoke_eq_of_ok resolve run s ctx h]
        rfl
    | err e =>
        rw [invoke_eq_of_err resolve run s e h]
        rfl

/-! ## C9 -/

/-- C9: the executor node is total at its public interface — for every input
state `invoke` returns a state, and the two exhaustive cases are: the `exec`
completes and the success update is applied, or the `exec` raises and the
exception is converted into the state's `error_message` field (the
`finally: return state` of the source suppresses propagation). -/
theorem C9_invoke_total :
    ∀ (resolve : String → Option Value) (run : String → Ctx → ExecResult)
      (s : AgentState),
      (∃ ctx, execCode run (CodeExecutionNode.extract_code s.code)
            (CodeExecutionNode.merged_context resolve s) = .ok ctx
          ∧ CodeExecutionNode.invoke resolve run s
              = CodeExecutionNode.success_update s ctx)
    ∨ (∃ e, execCode run (CodeExecutionNode.extract_code s.code)
            (CodeExecutionNode.merged_context resolve s) = .err e
          ∧ CodeExecutionNode.invoke resolve run s
              = { s with error_message := some e }) := by
  intro resolve run s
  cases h : execCode run (CodeExecutionNode.extract_code s.code)
      (CodeExecutionNode.merged_context resolve s) with
  | ok ctx => exact Or.inl ⟨ctx, rfl, invoke_eq_of_ok resolve run s ctx h⟩
  | err e => exact Or.inr ⟨e, rfl, invoke_eq_of_err resolve run s e h⟩

/-! ## C10 -/

/-- If no `"```"` close marker occurs in `l`, the lazy capture fails. -/
theorem takeUntilTicks_eq_none (l : List Char)
    (h : hasSub threeTicks l = false) : takeUntilTicks l = none := by
  induction l with
  | nil => rfl
  | cons c cs ih =>
      unfold hasSub at h
      rw [Bool.or_eq_false_iff] at h
      unfold takeUntilTicks
      rw [h.1]
      simp [ih h.2]

/-- When no fence starts at the current position, the position-local match
fails. -/
theorem matchAtHere_eq_none (l : List Char)
    (h : fenceAtHere l = false) : matchAtHere l = none := by
  unfold fenceAtHere at h
  unfold matchAtHere
  cases hd : dropLit fenceOpen l with
  | none => rfl
  | some rest =>
      cases rest with
      | nil => rfl
      | cons r rs =>
          simp only [hd] at h
          cases hs : isSpaceChar r with
          | true =>
              rw [hs, Bool.true_and] at h
              simp only [hs, if_true]
              exact takeUntilTicks_eq_none rs h
          | false =>
              simp only [hs, Bool.false_eq_true, if_false]

/-- A character list with no ```python fenced block admits no regex match. -/
theorem extractFrom_eq_none (l : List Char)
    (h : hasPythonFence l = false) : extractFrom l = none := by
  induction l with
  | nil => rfl
  | cons c cs ih =>
      unfold hasPythonFence at h
      rw [Bool.or_eq_false_iff] at h
      unfold extractFrom
      rw [matchAtHere_eq_none _ h.1]
      exact ih h.2

/-- C10: when the state's code text contains no ```python fenced code block,
extraction yields `None`, and the executor invocation is a Failure: `exec` of
`None` raises `TypeError`, so `error_message` is set to its message and the
variable environment is unchanged — never a Success. -/
theorem C10_unparsable_code_is_failed_attempt :
    ∀ (resolve : String → Option Value) (run : String → Ctx → ExecResult)
      (s : AgentState),
      containsPythonFence s.code = false →
      CodeExecutionNode.extract_code s.code = none
        ∧ CodeExecutionNode.invoke resolve run s
            = { s with error_message := some typeErrorNoneCode } := by
  intro resolve run s h
  have hex : CodeExecutionNode.extract_code s.code = none := by
    unfold CodeExecutionNode.extract_code
    rw [extractFrom_eq_none _ h]
    rfl
  refine ⟨hex, ?_⟩
  apply invoke_eq_of_err
  rw [hex]
  rfl

/-- A service-initialized state whose generated text has no fenced block. -/
def wStateNoFence : AgentState :=
  { AgentService.chatInitialState "q" [] with code := "x = 1" }

/-- Witness for C10 at a concrete fence-free generation. -/
theorem C10_witness :
    CodeExecutionNode.extract_code wStateNoFence.code = none
      ∧ CodeExecutionNode.invoke wResolve wRunErr wStateNoFence
          = { wStateNoFence with error_message := some typeErrorNoneCode } :=
  C10_unparsable_code_is_failed_attempt wResolve wRunErr wStateNoFence
    (by decide)

/-! ## C4 -/

/-- Counterexample to C4 as stated: the state with which `AgentService.chat`
enters a Task into the loop has `current_debugging_attempt = 1`, not `0` —
the source dictionary literally contains `"current_debugging_attempt": 1`. -/
theorem C4_counterexample :
    (AgentService.chatInitialState "q" []).current_debugging_attempt ≠ 0 := by
  decide

/-- C4 (amended): the attempt counter starts at `1` when a Task enters the
loop (`AgentService.chat` initializes `current_debugging_attempt` to `1`), is
incremented exactly once on each entry into debugging after a Failure, and is
reset to `0` when an execution succeeds and the loop exits. -/
theorem C4_attempt_lifecycle :
    (∀ (q : String) (vars : Ctx),
      (AgentService.chatInitialState q vars).current_debugging_attempt = 1)
  ∧ (∀ (debugFix : AgentState → String) (s : AgentState),
      (CodeDebuggingNode.invoke debugFix s).current_debugging_attempt
        = s.current_debugging_attempt + 1)
  ∧ (∀ (resolve : String → Option Value) (run : String → Ctx → ExecResult)
        (s : AgentState) (ctx : Ctx),
      execCode run (CodeExecutionNode.extract_code s.code)
          (CodeExecutionNode.merged_context resolve s) = .ok ctx →
      (CodeExecutionNode.invoke resolve run s).current_debugging_attempt
        = 0) := by
  refine ⟨fun q vars => rfl, fun debugFix s => rfl,
    fun resolve run s ctx h => ?_⟩
  rw [invoke_eq_of_ok resolve run s ctx h]
  rfl

/-- Witness for the amended C4 at a concrete successful execution. -/
theorem C4_witness :
    (CodeExecutionNode.invoke wResolve wRunOkEmpty
        wStateFenced).current_debugging_attempt = 0 :=
  C4_attempt_lifecycle.2.2 wResolve wRunOkEmpty wStateFenced [] (by decide)

/-! ## C5 -/

/-- Oracles of a concrete always-failing run in which task decomposition
rewrites the question, as `TaskDecompositionNode` does. -/
def cbOracles : Oracles :=
  { decompose := fun q => String.append "decomposed plan for " q
    generate := fun _ => "no fenced block"
    debugFix := fun _ => "still no fenced block"
    resolve := fun _ => none
    run := fun _ _ => ExecResult.err "boom" }

/-- The concrete Task entering the loop for the C5 run. -/
def cbStart : AgentState := AgentService.chatInitialState "original question" []

/-- C5 (code bug): after exhaustion the Fallback Handler is entered exactly
once, but its chain is invoked with `state.task` — the decomposed action plan
produced by `TaskDecompositionNode` — bound to the prompt slot that the
fallback prompt itself labels "User's original question", not with the user's
original question. -/
theorem C5_fallback_receives_decomposed_task :
    nodeAt cbOracles cbStart 11 = Node.fallback_handler
  ∧ countNode cbOracles cbStart Node.fallback_handler 13 = 1
  ∧ fallbackPromptInput (stateAt cbOracles cbStart 11)
      = String.append "decomposed plan for " "original question"
  ∧ fallbackPromptInput (stateAt cbOracles cbStart 11) ≠ cbStart.question := by
  refine ⟨by decide, by decide, by decide, by decide⟩

/-! ## Lemmas about the workflow machine -/

/-- Unfolding of one run step. -/
theorem machineRun_succ (O : Oracles) (c : Node × AgentState) (k : Nat) :
    machineRun O c (k + 1) = stepNode O (machineRun O c k) := rfl

/-- Unfolding of the node count. -/
theorem countNode_succ (O : Oracles) (s0 : AgentState) (t : Node) (N : Nat) :
    countNode O s0 t (N + 1)
      = countNode O s0 t N + (if nodeAt O s0 N = t then 1 else 0) := rfl

/-- Unfolding of the synthesizer count. -/
theorem countSynth_succ (O : Oracles) (s0 : AgentState) (N : Nat) :
    countSynth O s0 (N + 1)
      = countSynth O s0 N
          + (if isSynthNode (nodeAt O s0 N) then 1 else 0) := rfl

/-- An oracle family under which every artifact execution raises: the model
of a Task whose synthesized code artifacts always fail. -/
def alwaysFails (O : Oracles) : Prop :=
  ∀ (c : String) (ctx : Ctx), (O.run c ctx).isErr = true

/-- Under an always-failing executor, `invoke` always takes the error branch
(whether or not a fenced block was extracted) and only sets
`error_message`. -/
theorem invoke_err_of_alwaysFails (O : Oracles) (hO : alwaysFails O)
    (s : AgentState) :
    ∃ e, CodeExecutionNode.invoke O.resolve O.run s
        = { s with error_message := some e } := by
  cases hx : CodeExecutionNode.extract_code s.code with
  | none =>
      refine ⟨typeErrorNoneCode, ?_⟩
      apply invoke_eq_of_err
      rw [hx]
      rfl
  | some c =>
      cases hr : O.run c (CodeExecutionNode.merged_context O.resolve s) with
      | ok ctx =>
          exfalso
          have hcontra := hO c (CodeExecutionNode.merged_context O.resolve s)
          rw [hr] at hcontra
          simp [ExecResult.isErr] at hcontra
      | err e =>
          refine ⟨e, ?_⟩
          apply invoke_eq_of_err
          rw [hx]
          exact hr

/-- In an always-failing run entered at attempt 1, after `2 + 2*i` steps
(for `i < max_attempts`) the machine is entering the executor for the
`(i+1)`-st time: attempt counter `1 + i`, `i` completed executions, no
fallback entry yet, and `i + 1` synthesizer entries. -/
theorem alwaysFail_executor_trace (O : Oracles) (hO : alwaysFails O)
    (s0 : AgentState) (m : Nat)
    (h1 : s0.current_debugging_attempt = 1)
    (hm : s0.max_debugging_attempts = m) :
    ∀ i, i < m →
      ∃ s, machineRun O (Node.task_decomposer, s0) (2 + 2 * i)
            = (Node.code_executor, s)
        ∧ s.current_debugging_attempt = 1 + i
        ∧ s.max_debugging_attempts = m
        ∧ countNode O s0 Node.code_executor (2 + 2 * i) = i
        ∧ countNode O s0 Node.fallback_handler (2 + 2 * i) = 0
        ∧ countSynth O s0 (2 + 2 * i) = i + 1 := by
  intro i
  induction i with
  | zero =>
      intro _
      refine ⟨CodeGenerationNode.invoke O.generate
          (TaskDecompositionNode.invoke O.decompose s0), rfl, ?_, ?_, rfl, rfl,
          rfl⟩
      · simpa [CodeGenerationNode.invoke, TaskDecompositionNode.invoke]
          using h1
      · simpa [CodeGenerationNode.invoke, TaskDecompositionNode.invoke]
          using hm
  | succ i ih =>
      intro hi
      obtain ⟨s, hrun, hatt, hmax, hX, hF, hS⟩ := ih (by omega)
      obtain ⟨e, hs2⟩ := invoke_err_of_alwaysFails O hO s
      have hlt : ({ s with error_message := some e } :
            AgentState).current_debugging_attempt
          < ({ s with error_message := some e } :
            AgentState).max_debugging_attempts := by
        simp only [hatt, hmax]
        omega
      have hroute : routing_from_code_executor { s with error_message := some e }
          = Node.code_debugger := by
        unfold routing_from_code_executor
        simp [hlt]
      have hstep1 : machineRun O (Node.task_decomposer, s0) (2 + 2 * i + 1)
          = (Node.code_debugger, { s with error_message := some e }) := by
        rw [machineRun_succ, hrun]
        show (routing_from_code_executor
            (CodeExecutionNode.invoke O.resolve O.run s),
          CodeExecutionNode.invoke O.resolve O.run s) = _
        rw [hs2, hroute]
      have hstep2 : machineRun O (Node.task_decomposer, s0) (2 + 2 * i + 1 + 1)
          = (Node.code_executor, CodeDebuggingNode.invoke O.debugFix
              { s with error_message := some e }) := by
        rw [machineRun_succ, hstep1]
        rfl
      have hn0 : nodeAt O s0 (2 + 2 * i) = Node.code_executor := by
        unfold nodeAt
        rw [hrun]
      have hn1 : nodeAt O s0 (2 + 2 * i + 1) = Node.code_debugger := by
        unfold nodeAt
        rw [hstep1]
      have harith : 2 + 2 * (i + 1) = 2 + 2 * i + 1 + 1 := by ring
      rw [harith]
      refine ⟨CodeDebuggingNode.invoke O.debugFix
          { s with error_message := some e }, hstep2, ?_, ?_, ?_, ?_, ?_⟩
      · simp only [CodeDebuggingNode.invoke, hatt]
        omega
      · simpa [CodeDebuggingNode.invoke] using hmax
      · rw [countNode_succ, countNode_succ, hn0, hn1, hX]
        simp
      · rw [countNode_succ, countNode_succ, hn0, hn1, hF]
        simp
      · rw [countSynth_succ, countSynth_succ, hn0, hn1, hS]
        simp [isSynthNode]

/-- In an always-failing run entered at attempt 1 with `max_attempts = m ≥ 1`,
after `2*m + 1` steps the machine enters the Fallback Handler: the attempt
counter equals `m` at the transition, an error is recorded, the executor has
completed exactly `m` (failed) executions, the fallback was never entered
before, and exactly `m` synthesizer calls were made. -/
theorem alwaysFail_fallback (O : Oracles) (hO : alwaysFails O)
    (s0 : AgentState) (m : Nat)
    (h1 : s0.current_debugging_attempt = 1)
    (hm : s0.max_debugging_attempts = m) (hpos : 1 ≤ m) :
    ∃ s, machineRun O (Node.task_decomposer, s0) (2 * m + 1)
          = (Node.fallback_handler, s)
      ∧ s.current_debugging_attempt = m
      ∧ s.error_message.isSome = true
      ∧ countNode O s0 Node.code_executor (2 * m + 1) = m
      ∧ countNode O s0 Node.fallback_handler (2 * m + 1) = 0
      ∧ countSynth O s0 (2 * m + 1) = m := by
  obtain ⟨s, hrun, hatt, hmax, hX, hF, hS⟩ :=
    alwaysFail_executor_trace O hO s0 m h1 hm (m - 1) (by omega)
  have harith : 2 + 2 * (m - 1) = 2 * m := by omega
  rw [harith] at hrun hX hF hS
  have hatt2 : s.current_debugging_attempt = m := by omega
  obtain ⟨e, hs2⟩ := invoke_err_of_alwaysFails O hO s
  have hnlt : ¬ (({ s with error_message := some e } :
        AgentState).current_debugging_attempt
      < ({ s with error_message := some e } :
        AgentState).max_debugging_attempts) := by
    simp only [hatt2, hmax]
    omega
  have hroute : routing_from_code_executor { s with error_message := some e }
      = Node.fallback_handler := by
    unfold routing_from_code_executor
    simp [hnlt]
  have hn0 : nodeAt O s0 (2 * m) = Node.code_executor := by
    unfold nodeAt
    rw [hrun]
  refine ⟨{ s with error_message := some e }, ?_, hatt2, rfl, ?_, ?_, ?_⟩
  · rw [machineRun_succ, hrun]
    show (routing_from_code_executor
        (CodeExecutionNode.invoke O.resolve O.run s),
      CodeExecutionNode.invoke O.resolve O.run s) = _
    rw [hs2, hroute]
  · rw [countNode_succ, hn0, hX]
    simp
    omega
  · rw [countNode_succ, hn0, hF]
    simp
  · rw [countSynth_succ, hn0, hS]
    simp [isSynthNode]
    omega

/-- After the fallback entry of an always-failing run, the machine is
absorbed at the terminal node and every count is frozen: the executor total
stays at exactly `m` and the fallback total at exactly `1`, forever. -/
theorem alwaysFail_after_fallback (O : Oracles) (hO : alwaysFails O)
    (s0 : AgentState) (m : Nat)
    (h1 : s0.current_debugging_attempt = 1)
    (hm : s0.max_debugging_attempts = m) (hpos : 1 ≤ m) :
    ∀ N, 2 * m + 2 ≤ N →
      nodeAt O s0 N = Node.finished
      ∧ countNode O s0 Node.code_executor N = m
      ∧ countNode O s0 Node.fallback_handler N = 1 := by
  obtain ⟨s, hrun, hatt, herr, hX, hF, hS⟩ :=
    alwaysFail_fallback O hO s0 m h1 hm hpos
  have hn1 : nodeAt O s0 (2 * m + 1) = Node.fallback_handler := by
    unfold nodeAt
    rw [hrun]
  have habs : ∀ j, machineRun O (Node.task_decomposer, s0) (2 * m + 2 + j)
      = (Node.finished, s) := by
    intro j
    induction j with
    | zero =>
        show machineRun O (Node.task_decomposer, s0) (2 * m + 1 + 1) = _
        rw [machineRun_succ, hrun]
        rfl
    | succ j ih =>
        show machineRun O (Node.task_decomposer, s0) (2 * m + 2 + j + 1) = _
        rw [machineRun_succ, ih]
        rfl
  have hfin : ∀ N, 2 * m + 2 ≤ N → nodeAt O s0 N = Node.finished := by
    intro N hN
    obtain ⟨j, rfl⟩ : ∃ j, N = 2 * m + 2 + j := ⟨N - (2 * m + 2), by omega⟩
    unfold nodeAt
    rw [habs j]
  have hbaseX : countNode O s0 Node.code_executor (2 * m + 2) = m := by
    rw [countNode_succ, hn1, hX]
    simp
  have hbaseF : countNode O s0 Node.fallback_handler (2 * m + 2) = 1 := by
    rw [countNode_succ, hn1, hF]
    simp
  intro N hN
  refine ⟨hfin N hN, ?_⟩
  induction N, hN using Nat.le_induction with
  | base => exact ⟨hbaseX, hbaseF⟩
  | succ N hN ih =>
      have hNfin := hfin N hN
      obtain ⟨ihX, ihF⟩ := ih
      constructor
      · rw [countNode_succ, hNfin, ihX]
        simp
      · rw [countNode_succ, hNfin, ihF]
        simp

/-- C1: for every Task whose synthesized code artifacts always fail to
execute (every `exec` raises, under any resolver and any generated code), the
repair loop reaches the Fallback Handler — the terminal Exhausted state —
after exactly `max_attempts` failed executions: the executor has been entered
exactly `max_attempts` times when the fallback is entered at step
`2*max_attempts + 1`, the executor is never entered again afterwards, the
fallback had never been entered before and is entered exactly once, and the
Executing-to-Exhausted transition is taken exactly when the attempt counter
equals `max_attempts`. -/
theorem C1_exhausted_after_exactly_max_attempts (O : Oracles)
    (s0 : AgentState) (m : Nat) (hO : alwaysFails O)
    (h1 : s0.current_debugging_attempt = 1)
    (hm : s0.max_debugging_attempts = m) (hpos : 1 ≤ m) :
    nodeAt O s0 (2 * m + 1) = Node.fallback_handler
  ∧ (stateAt O s0 (2 * m + 1)).current_debugging_attempt = m
  ∧ (stateAt O s0 (2 * m + 1)).error_message.isSome = true
  ∧ countNode O s0 Node.code_executor (2 * m + 1) = m
  ∧ countNode O s0 Node.fallback_handler (2 * m + 1) = 0
  ∧ (∀ N, 2 * m + 2 ≤ N →
      countNode O s0 Node.code_executor N = m
      ∧ countNode O s0 Node.fallback_handler N = 1
      ∧ nodeAt O s0 N = Node.finished) := by
  obtain ⟨s, hrun, hatt, herr, hX, hF, hS⟩ :=
    alwaysFail_fallback O hO s0 m h1 hm hpos
  refine ⟨?_, ?_, ?_, hX, hF, ?_⟩
  · unfold nodeAt
    rw [hrun]
  · unfold stateAt
    rw [hrun]
    exact hatt
  · unfold stateAt
    rw [hrun]
    exact herr
  · intro N hN
    obtain ⟨hfin, hXN, hFN⟩ := alwaysFail_after_fallback O hO s0 m h1 hm hpos N hN
    exact ⟨hXN, hFN, hfin⟩

/-- Oracles of an always-failing run used by machine-level witnesses. -/
def wOracles : Oracles :=
  { decompose := fun q => q
    generate := fun _ => "no fence"
    debugFix := fun _ => "no fence either"
    resolve := fun _ => none
    run := fun _ _ => ExecResult.err "boom" }

/-- The service-initialized state used by machine-level witnesses
(`max_debugging_attempts = 5`). -/
def wChatState : AgentState := AgentService.chatInitialState "q" []

/-- Witness for C1 with the concrete service configuration
(`current_debugging_attempt = 1`, `max_debugging_attempts = 5`) and an
always-raising executor. -/
theorem C1_witness :
    nodeAt wOracles wChatState 11 = Node.fallback_handler
  ∧ (stateAt wOracles wChatState 11).current_debugging_attempt = 5
  ∧ (stateAt wOracles wChatState 11).error_message.isSome = true
  ∧ countNode wOracles wChatState Node.code_executor 11 = 5
  ∧ countNode wOracles wChatState Node.fallback_handler 11 = 0
  ∧ (∀ N, 12 ≤ N →
      countNode wOracles wChatState Node.code_executor N = 5
      ∧ countNode wOracles wChatState Node.fallback_handler N = 1
      ∧ nodeAt wOracles wChatState N = Node.finished) :=
  C1_exhausted_after_exactly_max_attempts wOracles wChatState 5
    (fun _ _ => rfl) rfl rfl (by decide)

/-! ## The repair-loop invariant (general runs, arbitrary outcomes) -/

/-- The router never dispatches back to the executor directly. -/
theorem routing_ne_executor (s : AgentState) :
    routing_from_code_executor s ≠ Node.code_executor := by
  unfold routing_from_code_executor
  split_ifs <;> simp

/-- A step lands on the executor exactly when it leaves a synthesizer node:
`code_generator` and `code_debugger` have their only outgoing edge into
`code_executor`, and no other node reaches the executor. -/
theorem stepNode_executor_iff (O : Oracles) (c : Node × AgentState) :
    (stepNode O c).1 = Node.code_executor ↔ isSynthNode c.1 = true := by
  obtain ⟨n, s⟩ := c
  cases n <;> simp [stepNode, isSynthNode, routing_ne_executor]

/-- The synthesizer count splits into generator entries plus debugger
entries. -/
theorem countSynth_eq_add (O : Oracles) (s0 : AgentState) :
    ∀ N, countSynth O s0 N
      = countNode O s0 Node.code_generator N
        + countNode O s0 Node.code_debugger N := by
  intro N
  induction N with
  | zero => rfl
  | succ N ih =>
      rw [countSynth_succ, countNode_succ, countNode_succ, ih]
      cases hn : nodeAt O s0 N <;> simp [isSynthNode] <;> omega

/-- The per-node invariant of the repair loop, over the generator count `G`,
the debugger count `D`, the current attempt counter `att` and the configured
maximum `mx` of the state occupying node `n`. -/
def nodeInv (m : Nat) (n : Node) (G D att mx : Nat) : Prop :=
  match n with
  | Node.task_decomposer => G = 0 ∧ D = 0 ∧ att = 1 ∧ mx = m
  | Node.code_generator => G = 0 ∧ D = 0 ∧ att = 1 ∧ mx = m
  | Node.code_executor => G = 1 ∧ att = D + 1 ∧ D + 1 ≤ m ∧ mx = m
  | Node.code_debugger => G = 1 ∧ att = D + 1 ∧ D + 1 < m ∧ mx = m
  | Node.fallback_handler => G = 1 ∧ D + 1 = m
  | _ => G = 1 ∧ D + 1 ≤ m

/-- The run invariant: at every time `k` the configuration satisfies the
per-node invariant. -/
def RepairInv (O : Oracles) (s0 : AgentState) (m k : Nat) : Prop :=
  nodeInv m (nodeAt O s0 k)
    (countNode O s0 Node.code_generator k)
    (countNode O s0 Node.code_debugger k)
    ((stateAt O s0 k).current_debugging_attempt)
    ((stateAt O s0 k).max_debugging_attempts)

/-- The repair-loop invariant holds at every step of every run entered at
attempt 1 with a positive `max_attempts`, for arbitrary oracles (arbitrary
generation and execution outcomes). -/
theorem repairInv_holds (O : Oracles) (s0 : AgentState) (m : Nat)
    (h1 : s0.current_debugging_attempt = 1)
    (hm : s0.max_debugging_attempts = m) (hpos : 1 ≤ m) :
    ∀ k, RepairInv O s0 m k := by
  intro k
  induction k with
  | zero => exact ⟨rfl, rfl, h1, hm⟩
  | succ k ih =>
      rcases hrun : machineRun O (Node.task_decomposer, s0) k with ⟨n, s⟩
      have hsk : stateAt O s0 k = s := by
        unfold stateAt
        rw [hrun]
      cases n with
      | task_decomposer =>
          unfold RepairInv at ih
          have hnk : nodeAt O s0 k = Node.task_decomposer := by
            unfold nodeAt
            rw [hrun]
          rw [hnk, hsk] at ih
          simp only [nodeInv] at ih
          obtain ⟨hG, hD, hatt, hmax⟩ := ih
          have hrun1 : machineRun O (Node.task_decomposer, s0) (k + 1)
              = (Node.code_generator,
                 TaskDecompositionNode.invoke O.decompose s) := by
            rw [machineRun_succ, hrun]
            rfl
          have hn1 : nodeAt O s0 (k + 1) = Node.code_generator := by
            unfold nodeAt
            rw [hrun1]
          have hs1 : stateAt O s0 (k + 1)
              = TaskDecompositionNode.invoke O.decompose s := by
            unfold stateAt
            rw [hrun1]
          unfold RepairInv
          rw [hn1, hs1, countNode_succ, countNode_succ, hnk]
          simp only [nodeInv]
          simp [TaskDecompositionNode.invoke, hG, hD, hatt, hmax]
      | code_generator =>
          unfold RepairInv at ih
          have hnk : nodeAt O s0 k = Node.code_generator := by
            unfold nodeAt
            rw [hrun]
          rw [hnk, hsk] at ih
          simp only [nodeInv] at ih
          obtain ⟨hG, hD, hatt, hmax⟩ := ih
          have hrun1 : machineRun O (Node.task_decomposer, s0) (k + 1)
              = (Node.code_executor,
                 CodeGenerationNode.invoke O.generate s) := by
            rw [machineRun_succ, hrun]
            rfl
          have hn1 : nodeAt O s0 (k + 1) = Node.code_executor := by
            unfold nodeAt
            rw [hrun1]
          have hs1 : stateAt O s0 (k + 1)
              = CodeGenerationNode.invoke O.generate s := by
            unfold stateAt
            rw [hrun1]
          unfold RepairInv
          rw [hn1, hs1, countNode_succ, countNode_succ, hnk]
          simp only [nodeInv]
          simp [CodeGenerationNode.invoke, hG, hD, hatt, hmax]
          omega
      | code_debugger =>
          unfold RepairInv at ih
          have hnk : nodeAt O s0 k = Node.code_debugger := by
            unfold nodeAt
            rw [hrun]
          rw [hnk, hsk] at ih
          simp only [nodeInv] at ih
          obtain ⟨hG, hatt, hDm, hmax⟩ := ih
          have hrun1 : machineRun O (Node.task_decomposer, s0) (k + 1)
              = (Node.code_executor,
                 CodeDebuggingNode.invoke O.debugFix s) := by
            rw [machineRun_succ, hrun]
            rfl
          have hn1 : nodeAt O s0 (k + 1) = Node.code_executor := by
            unfold nodeAt
            rw [hrun1]
          have hs1 : stateAt O s0 (k + 1)
              = CodeDebuggingNode.invoke O.debugFix s := by
            unfold stateAt
            rw [hrun1]
          unfold RepairInv
          rw [hn1, hs1, countNode_succ, countNode_succ, hnk]
          simp only [nodeInv]
          simp [CodeDebuggingNode.invoke, hG, hatt, hmax]
          omega
      | visualization_display =>
          unfold RepairInv at ih
          have hnk : nodeAt O s0 k = Node.visualization_display := by
            unfold nodeAt
            rw [hrun]
          rw [hnk, hsk] at ih
          simp only [nodeInv] at ih
          obtain ⟨hG, hDm⟩ := ih
          have hrun1 : machineRun O (Node.task_decomposer, s0) (k + 1)
              = (Node.analysis_responder, VisualizationDisplayNode.invoke s) := by
            rw [machineRun_succ, hrun]
            rfl
          have hn1 : nodeAt O s0 (k + 1) = Node.analysis_responder := by
            unfold nodeAt
            rw [hrun1]
          unfold RepairInv
          rw [hn1, countNode_succ, countNode_succ, hnk]
          simp only [nodeInv]
          simp [hG]
          omega
      | analysis_responder =>
          unfold RepairInv at ih
          have hnk : nodeAt O s0 k = Node.analysis_responder := by
            unfold nodeAt
            rw [hrun]
          rw [hnk, hsk] at ih
          simp only [nodeInv] at ih
          obtain ⟨hG, hDm⟩ := ih
          have hrun1 : machineRun O (Node.task_decomposer, s0) (k + 1)
              = (Node.finished, AnalysisResponseNode.invoke s) := by
            rw [machineRun_succ, hrun]
            rfl
          have hn1 : nodeAt O s0 (k + 1) = Node.finished := by
            unfold nodeAt
            rw [hrun1]
          unfold RepairInv
          rw [hn1, countNode_succ, countNode_succ, hnk]
          simp only [nodeInv]
          simp [hG]
          omega
      | fallback_handler =>
          unfold RepairInv at ih
          have hnk : nodeAt O s0 k = Node.fallback_handler := by
            unfold nodeAt
            rw [hrun]
          rw [hnk, hsk] at ih
          simp only [nodeInv] at ih
          obtain ⟨hG, hDm⟩ := ih
          have hrun1 : machineRun O (Node.task_decomposer, s0) (k + 1)
              = (Node.finished, FallbackHandlingNode.invoke s) := by
            rw [machineRun_succ, hrun]
            rfl
          have hn1 : nodeAt O s0 (k + 1) = Node.finished := by
            unfold nodeAt
            rw [hrun1]
          unfold RepairInv
          rw [hn1, countNode_succ, countNode_succ, hnk]
          simp only [nodeInv]
          simp [hG]
          omega
      | finished =>
          unfold RepairInv at ih
          have hnk : nodeAt O s0 k = Node.finished := by
            unfold nodeAt
            rw [hrun]
          rw [hnk, hsk] at ih
          simp only [nodeInv] at ih
          obtain ⟨hG, hDm⟩ := ih
          have hrun1 : machineRun O (Node.task_decomposer, s0) (k + 1)
              = (Node.finished, s) := by
            rw [machineRun_succ, hrun]
            rfl
          have hn1 : nodeAt O s0 (k + 1) = Node.finished := by
            unfold nodeAt
            rw [hrun1]
          unfold RepairInv
          rw [hn1, countNode_succ, countNode_succ, hnk]
          simp only [nodeInv]
          simp [hG]
          omega
      | code_executor =>
          unfold RepairInv at ih
          have hnk : nodeAt O s0 k = Node.code_executor := by
            unfold nodeAt
            rw [hrun]
          rw [hnk, hsk] at ih
          simp only [nodeInv] at ih
          obtain ⟨hG, hatt, hDm, hmax⟩ := ih
          have hrun1 : machineRun O (Node.task_decomposer, s0) (k + 1)
              = (routing_from_code_executor
                    (CodeExecutionNode.invoke O.resolve O.run s),
                 CodeExecutionNode.invoke O.resolve O.run s) := by
            rw [machineRun_succ, hrun]
            rfl
          cases her : execCode O.run (CodeExecutionNode.extract_code s.code)
              (CodeExecutionNode.merged_context O.resolve s) with
          | err e =>
              have hinv := invoke_eq_of_err O.resolve O.run s e her
              by_cases hlt : countNode O s0 Node.code_debugger k + 1 < m
              · have hroute : routing_from_code_executor
                    (CodeExecutionNode.invoke O.resolve O.run s)
                      = Node.code_debugger := by
                  rw [hinv]
                  unfold routing_from_code_executor
                  have hcond : ({ s with error_message := some e } :
                        AgentState).current_debugging_attempt
                      < ({ s with error_message := some e } :
                        AgentState).max_debugging_attempts := by
                    show s.current_debugging_attempt < s.max_debugging_attempts
                    omega
                  simp [hcond]
                have hn1 : nodeAt O s0 (k + 1) = Node.code_debugger := by
                  unfold nodeAt
                  rw [hrun1]
                  exact hroute
                have hs1 : stateAt O s0 (k + 1)
                    = { s with error_message := some e } := by
                  unfold stateAt
                  rw [hrun1]
                  exact hinv
                unfold RepairInv
                rw [hn1, hs1, countNode_succ, countNode_succ, hnk]
                simp only [nodeInv]
                simp [hG]
                omega
              · have hroute : routing_from_code_executor
                    (CodeExecutionNode.invoke O.resolve O.run s)
                      = Node.fallback_handler := by
                  rw [hinv]
                  unfold routing_from_code_executor
                  have hcond : ¬ (({ s with error_message := some e } :
                        AgentState).current_debugging_attempt
                      < ({ s with error_message := some e } :
                        AgentState).max_debugging_attempts) := by
                    show ¬ (s.current_debugging_attempt
                        < s.max_debugging_attempts)
                    omega
                  simp [hcond]
                have hn1 : nodeAt O s0 (k + 1) = Node.fallback_handler := by
                  unfold nodeAt
                  rw [hrun1]
                  exact hroute
                unfold RepairInv
                rw [hn1, countNode_succ, countNode_succ, hnk]
                simp only [nodeInv]
                simp [hG]
                omega
          | ok ctx =>
              have hinv := invoke_eq_of_ok O.resolve O.run s ctx her
              have herrnone : (CodeExecutionNode.invoke
                  O.resolve O.run s).error_message = none := by
                rw [hinv]
                rfl
              by_cases hviz : (CodeExecutionNode.invoke
                  O.resolve O.run s).visualization.isSome
              · have hroute : routing_from_code_executor
                    (CodeExecutionNode.invoke O.resolve O.run s)
                      = Node.visualization_display := by
                  unfold routing_from_code_executor
                  rw [herrnone]
                  simp [hviz]
                have hn1 : nodeAt O s0 (k + 1) = Node.visualization_display := by
                  unfold nodeAt
                  rw [hrun1]
                  exact hroute
                unfold RepairInv
                rw [hn1, countNode_succ, countNode_succ, hnk]
                simp only [nodeInv]
                simp [hG]
                omega
              · have hroute : routing_from_code_executor
                    (CodeExecutionNode.invoke O.resolve O.run s)
                      = Node.analysis_responder := by
                  unfold routing_from_code_executor
                  rw [herrnone]
                  simp [hviz]
                have hn1 : nodeAt O s0 (k + 1) = Node.analysis_responder := by
                  unfold nodeAt
                  rw [hrun1]
                  exact hroute
                unfold RepairInv
                rw [hn1, countNode_succ, countNode_succ, hnk]
                simp only [nodeInv]
                simp [hG]
                omega

/-- C8: in every Task (arbitrary generation and execution outcomes), each
synthesizer step (code generation or debugging) is followed by exactly one
executor step — a step lands on the executor iff it leaves a synthesizer
node — so after any number of steps the number of completed executor entries
equals the number of synthesizer entries one step earlier, and the total
number of synthesizer entries never exceeds `max_attempts`. -/
theorem C8_synth_exec_balance (O : Oracles) (s0 : AgentState) (m : Nat)
    (h1 : s0.current_debugging_attempt = 1)
    (hm : s0.max_debugging_attempts = m) (hpos : 1 ≤ m) :
    (∀ k, isSynthNode (nodeAt O s0 k) = true →
        nodeAt O s0 (k + 1) = Node.code_executor)
  ∧ (∀ k, nodeAt O s0 (k + 1) = Node.code_executor →
        isSynthNode (nodeAt O s0 k) = true)
  ∧ (∀ N, countNode O s0 Node.code_executor (N + 1) = countSynth O s0 N)
  ∧ (∀ N, countSynth O s0 N ≤ m) := by
  have hstep : ∀ k, nodeAt O s0 (k + 1) = Node.code_executor
      ↔ isSynthNode (nodeAt O s0 k) = true := by
    intro k
    unfold nodeAt
    rw [machineRun_succ]
    exact stepNode_executor_iff O (machineRun O (Node.task_decomposer, s0) k)
  refine ⟨fun k h => (hstep k).mpr h, fun k h => (hstep k).mp h, ?_, ?_⟩
  · intro N
    induction N with
    | zero => rfl
    | succ N ih =>
        rw [countNode_succ, countSynth_succ, ih]
        by_cases h : isSynthNode (nodeAt O s0 N) = true
        · rw [if_pos ((hstep N).mpr h), if_pos h]
        · rw [if_neg (fun hc => h ((hstep N).mp hc)), if_neg h]
  · intro N
    have hInv := repairInv_holds O s0 m h1 hm hpos N
    unfold RepairInv at hInv
    rw [countSynth_eq_add]
    cases hn : nodeAt O s0 N <;> rw [hn] at hInv <;>
      simp only [nodeInv] at hInv <;> omega

/-- Witness for C8 with the concrete service configuration and an
always-raising executor: ten steps in, five executor entries balance five
synthesizer entries, within the bound `max_debugging_attempts = 5`. -/
theorem C8_witness :
    countNode wOracles wChatState Node.code_executor 11
        = countSynth wOracles wChatState 10
      ∧ countSynth wOracles wChatState 10 ≤ 5 :=
  ⟨(C8_synth_exec_balance wOracles wChatState 5 rfl rfl (by decide)).2.2.1 10,
   (C8_synth_exec_balance wOracles wChatState 5 rfl rfl (by decide)).2.2.2 10⟩

end PA
